import Mathlib

/-!
# Verification of the rusty-fim core against its specification

Shallow embedding of the rusty-fim file-integrity monitor:
the change-classification algorithm, the entry store (SQLite layer of
`database.rs`), the scan protocols of the engine (`fim.rs`), and the
watcher's filtering, throttling and pattern matching (`watcher.rs`).

Modelling conventions:
* machine integers become `Nat` / `Int` (no overflow is reachable in the
  modelled paths: sizes and counts only grow by small increments);
* UTC instants (`chrono::DateTime<Utc>`) become `Timestamp`, a pair of
  whole seconds since the epoch and a nanosecond remainder — chrono's
  `timestamp()` keeps only `sec`;
* the SQLite table `file_data` becomes a list of `DbRow` whose timestamp
  columns are `Int` seconds, exactly as the INTEGER columns store them;
* the BLAKE3 / SHA-256 hex digests are abstracted as function parameters
  (`HashFns`): the digest internals are irrelevant to every claim — what
  matters is which bytes are hashed and what the code does with the
  result;
* fallible Rust functions (`Result`) become `Except`; I/O failures
  (open/stat/mmap) are not modelled, so the only scan error in the model
  is the file-size ceiling;
* the filesystem state a scan observes is passed in explicitly
  (`FileState` per path), and wall-clock reads (`Utc::now()`,
  `Instant::now()`) become explicit `now` arguments.
-/

/-- A UTC instant: whole seconds since the epoch (`sec`, the value chrono's
`timestamp()` returns) plus the nanosecond remainder (`0 ≤ nsec < 10^9`). -/
structure Timestamp where
  sec : Int
  nsec : Nat
  deriving DecidableEq, Repr

/-- Truncation of an instant to whole-second resolution: what survives a
round trip through an INTEGER column of the store. -/
def truncTs (t : Timestamp) : Timestamp := ⟨t.sec, 0⟩

/-- `FimEntryData` from `database.rs`: the per-file fingerprint record. -/
structure FimEntryData where
  size : Nat
  perm : String
  uid : Nat
  gid : Nat
  md5 : Option String
  sha1 : Option String
  sha256 : Option String
  blake3 : String
  mtime : Timestamp
  ctime : Timestamp
  atime : Timestamp
  inode : Nat
  dev : Nat
  scanned : Bool
  deriving DecidableEq, Repr

/-- `ChangeType` from `fim.rs`. -/
inductive ChangeType where
  | Added
  | Modified
  | Deleted
  | PermissionChanged
  | SizeChanged
  | HashChanged
  | TimestampChanged
  deriving DecidableEq, Repr

/-- `FimEngine::detect_change_type` from `fim.rs`: the if/else-if chain
classifying the difference between an old and a new fingerprint. -/
def detect_change_type (old new : FimEntryData) : Option ChangeType :=
  if old.blake3 ≠ new.blake3 then
    some ChangeType.HashChanged
  else if old.size ≠ new.size then
    some ChangeType.SizeChanged
  else if old.perm ≠ new.perm ∨ old.uid ≠ new.uid ∨ old.gid ≠ new.gid then
    some ChangeType.PermissionChanged
  else if old.mtime ≠ new.mtime ∨ old.ctime ≠ new.ctime then
    some ChangeType.TimestampChanged
  else
    none

/-! ## The store (`database.rs`)

The `file_data` table is a list of rows; the UNIQUE constraint on `path`
is an invariant maintained by `insert_data` (INSERT OR REPLACE). The
`id`, `created_at` and `updated_at` columns are not modelled: no query
of the code reads them back. -/

/-- The Rust constant `FIMDB_OK`. -/
def FIMDB_OK : Int := 0

/-- One row of the `file_data` table. The timestamp columns are INTEGER
seconds, exactly as `insert_data` binds them (`.timestamp()`). -/
structure DbRow where
  path : String
  size : Nat
  perm : String
  uid : Nat
  gid : Nat
  md5 : Option String
  sha1 : Option String
  sha256 : Option String
  blake3 : String
  mtime : Int
  ctime : Int
  atime : Int
  inode : Nat
  dev : Nat
  scanned : Bool
  deriving DecidableEq, Repr

/-- The `file_data` table. -/
abbrev Db := List DbRow

/-- The row `FimDb::insert_data` binds for a path and a fingerprint:
timestamps are collapsed to whole seconds by `.timestamp()`, `scanned`
is stored as an integer flag. -/
def entryToRow (p : String) (d : FimEntryData) : DbRow :=
  { path := p, size := d.size, perm := d.perm, uid := d.uid, gid := d.gid,
    md5 := d.md5, sha1 := d.sha1, sha256 := d.sha256, blake3 := d.blake3,
    mtime := d.mtime.sec, ctime := d.ctime.sec, atime := d.atime.sec,
    inode := d.inode, dev := d.dev, scanned := d.scanned }

/-- The fingerprint `FimDb::get_path` reconstructs from a row:
`DateTime::from_timestamp(secs, 0)` gives instants with zero nanosecond
part, `scanned` is read back as `value != 0`. -/
def rowToEntryData (r : DbRow) : FimEntryData :=
  { size := r.size, perm := r.perm, uid := r.uid, gid := r.gid,
    md5 := r.md5, sha1 := r.sha1, sha256 := r.sha256, blake3 := r.blake3,
    mtime := ⟨r.mtime, 0⟩, ctime := ⟨r.ctime, 0⟩, atime := ⟨r.atime, 0⟩,
    inode := r.inode, dev := r.dev, scanned := r.scanned }

/-- `FimEntry` from `database.rs`: a path together with its fingerprint. -/
structure FimEntry where
  path : String
  data : FimEntryData
  deriving DecidableEq, Repr

/-- `FimDb::insert_data`: INSERT OR REPLACE keyed by `path` — any
existing row for the path is replaced by the freshly bound one. -/
def insert_data (p : String) (d : FimEntryData) (db : Db) : Db :=
  db.filter (fun r => r.path ≠ p) ++ [entryToRow p d]

/-- `FimDb::get_path`: SELECT by path, reconstructing the fingerprint. -/
def get_path (p : String) (db : Db) : Option FimEntry :=
  (db.find? (fun r => r.path = p)).map (fun r => ⟨r.path, rowToEntryData r⟩)

/-- `FimDb::remove_path`: DELETE by path (no-op when absent). -/
def remove_path (p : String) (db : Db) : Db :=
  db.filter (fun r => r.path ≠ p)

/-- `FimDb::set_all_unscanned`: `UPDATE file_data SET scanned = 0`.
The row count reported by SQLite is only logged; the function returns
the constant `FIMDB_OK`. -/
def set_all_unscanned (db : Db) : Int × Db :=
  (FIMDB_OK, db.map (fun r => { r with scanned := false }))

/-- `FimDb::delete_not_scanned`: `DELETE FROM file_data WHERE scanned = 0`,
returning the number of rows deleted. -/
def delete_not_scanned (db : Db) : Nat × Db :=
  ((db.filter (fun r => !r.scanned)).length, db.filter (fun r => r.scanned))

/-- The rows of the table in ascending path order
(`ORDER BY path`). -/
def sortRows (db : Db) : List DbRow :=
  List.insertionSort (fun a b => a.path ≤ b.path) db

/-- `FimDb::get_data_checksum`: a BLAKE3 accumulator is fed the `blake3`
column of every row in ascending path order and finalized. The digest
function is a parameter; feeding chunks one by one digests their
concatenation, so the accumulated input is the fold of string append. -/
def get_data_checksum (hash : String → String) (db : Db) : String :=
  hash ((sortRows db).foldl (fun acc r => acc ++ r.blake3) "")

/-! ## The hasher (`hasher.rs`)

`HashFns` carries the two digest primitives the code uses (BLAKE3 hex,
SHA-256 hex). A file's bytes are modelled as a `String` (`content`).
All strategy branches of `hash_file` feed the whole content to the
enabled hashers; the buffered 64 KiB loop, the sequential mmap path and
the rayon-parallel path differ only in how the bytes are chunked, which
the digest abstraction absorbs. -/

/-- The digest primitives: BLAKE3 and SHA-256 as hex-string functions. -/
structure HashFns where
  blake3 : String → String
  sha256 : String → String

/-- `HashConfig` from `hasher.rs`. -/
structure HashConfig where
  use_blake3 : Bool
  use_sha256 : Bool
  use_sha1 : Bool
  use_md5 : Bool
  use_mmap : Bool
  parallel_threshold : Nat
  deriving DecidableEq, Repr

/-- `HashConfig::default()`. -/
def defaultHashConfig : HashConfig :=
  { use_blake3 := true, use_sha256 := false, use_sha1 := false,
    use_md5 := false, use_mmap := true, parallel_threshold := 1048576 }

/-- `FileHashes` from `hasher.rs`. -/
structure FileHashes where
  blake3 : String
  sha256 : Option String
  sha1 : Option String
  md5 : Option String
  deriving DecidableEq, Repr

/-- `FileHasher::hash_data_parallel`: BLAKE3 over the mapped region with
`update_rayon` when enabled (`unwrap_or_default` yields `""` when not),
SHA-256 sequentially; SHA-1/MD5 are never produced. -/
def hash_data_parallel (H : HashFns) (cfg : HashConfig) (data : String) :
    FileHashes :=
  { blake3 := if cfg.use_blake3 then H.blake3 data else "",
    sha256 := if cfg.use_sha256 then some (H.sha256 data) else none,
    sha1 := none, md5 := none }

/-- `FileHasher::hash_data_sequential`. -/
def hash_data_sequential (H : HashFns) (cfg : HashConfig) (data : String) :
    FileHashes :=
  { blake3 := if cfg.use_blake3 then H.blake3 data else "",
    sha256 := if cfg.use_sha256 then some (H.sha256 data) else none,
    sha1 := none, md5 := none }

/-- `FileHasher::hash_empty_file`: the digests of the empty byte string
(`String::new()` for BLAKE3 when disabled). -/
def hash_empty_file (H : HashFns) (cfg : HashConfig) : FileHashes :=
  { blake3 := if cfg.use_blake3 then H.blake3 "" else "",
    sha256 := if cfg.use_sha256 then some (H.sha256 "") else none,
    sha1 := none, md5 := none }

/-- `FileHasher::hash_file_buffered`: the 64 KiB read loop feeds the whole
content through the enabled incremental hashers;
`unwrap_or_default` yields `""` for BLAKE3 when it is disabled. -/
def hash_file_buffered (H : HashFns) (cfg : HashConfig) (content : String) :
    FileHashes :=
  { blake3 := if cfg.use_blake3 then H.blake3 content else "",
    sha256 := if cfg.use_sha256 then some (H.sha256 content) else none,
    sha1 := none, md5 := none }

/-- `FileHasher::hash_file_mmap`. -/
def hash_file_mmap (H : HashFns) (cfg : HashConfig) (size : Nat)
    (content : String) : FileHashes :=
  if size = 0 then hash_empty_file H cfg
  else if cfg.parallel_threshold ≤ size ∧ cfg.use_blake3 then
    hash_data_parallel H cfg content
  else
    hash_data_sequential H cfg content

/-- `FileHasher::hash_file`: strategy selection by size and `use_mmap`. -/
def hash_file (H : HashFns) (cfg : HashConfig) (size : Nat)
    (content : String) : FileHashes :=
  if cfg.use_mmap ∧ 0 < size then hash_file_mmap H cfg size content
  else hash_file_buffered H cfg content

/-! ## The engine (`fim.rs`) -/

/-- The filesystem state of one regular file as a scan observes it:
`fs::metadata` fields plus the bytes the hasher reads. -/
structure FileState where
  size : Nat
  perm : String
  uid : Nat
  gid : Nat
  content : String
  mtime : Timestamp
  ctime : Timestamp
  inode : Nat
  dev : Nat
  deriving DecidableEq, Repr

/-- The one scan failure the model covers: the `max_file_size` ceiling
(`File {} exceeds size limit`). I/O failures are not modelled. -/
inductive ScanError where
  | sizeExceeded
  deriving DecidableEq, Repr

/-- The fingerprint `scan_single_file` assembles for a file it accepts:
metadata fields, the configured digests, `atime = Utc::now()` and
`scanned = true`. -/
def scanEntry (H : HashFns) (cfg : HashConfig) (now : Timestamp)
    (fs : FileState) : FimEntryData :=
  { size := fs.size, perm := fs.perm, uid := fs.uid, gid := fs.gid,
    md5 := (hash_file H cfg fs.size fs.content).md5,
    sha1 := (hash_file H cfg fs.size fs.content).sha1,
    sha256 := (hash_file H cfg fs.size fs.content).sha256,
    blake3 := (hash_file H cfg fs.size fs.content).blake3,
    mtime := fs.mtime, ctime := fs.ctime, atime := now,
    inode := fs.inode, dev := fs.dev, scanned := true }

/-- `FimEngine::scan_single_file`: reject files over the configured
ceiling (`metadata.len() > max_size`), otherwise hash the content and
assemble the fingerprint. The hash configuration is never validated
here or anywhere else in the engine. -/
def scan_single_file (H : HashFns) (cfg : HashConfig) (maxsz : Option Nat)
    (now : Timestamp) (fs : FileState) : Except ScanError FimEntryData :=
  match maxsz with
  | some m =>
    if m < fs.size then Except.error ScanError.sizeExceeded
    else Except.ok (scanEntry H cfg now fs)
  | none => Except.ok (scanEntry H cfg now fs)

/-- Whether `scan_single_file` succeeds on a file (its only failure is
the size ceiling). -/
def scan_succeeds (maxsz : Option Nat) (fs : FileState) : Bool :=
  match maxsz with
  | some m => decide (fs.size ≤ m)
  | none => true

/-- `FileChange` from `fim.rs`. -/
structure FileChange where
  path : String
  change_type : ChangeType
  old_entry : Option FimEntryData
  new_entry : Option FimEntryData
  detected_at : Timestamp
  deriving DecidableEq, Repr

/-- `FimEngine::check_file_changes`: the single-path comparison of the
incremental protocol. `st = none` is the `!path.exists()` branch; on an
existing file the new fingerprint is computed, written to the store, and
classified against the previously stored entry. -/
def check_file_changes (H : HashFns) (cfg : HashConfig) (maxsz : Option Nat)
    (now : Timestamp) (p : String) (st : Option FileState) (db : Db) :
    Except ScanError (Option FileChange × Db) :=
  match st with
  | none =>
    match get_path p db with
    | some old =>
      Except.ok (some
        { path := p, change_type := ChangeType.Deleted,
          old_entry := some old.data, new_entry := none,
          detected_at := now },
        remove_path p db)
    | none => Except.ok (none, db)
  | some fs =>
    match scan_single_file H cfg maxsz now fs with
    | Except.error e => Except.error e
    | Except.ok newd =>
      match get_path p db with
      | some o =>
        match detect_change_type o.data newd with
        | some ct =>
          Except.ok (some
            { path := p, change_type := ct,
              old_entry := some o.data, new_entry := some newd,
              detected_at := now }, insert_data p newd db)
        | none => Except.ok (none, insert_data p newd db)
      | none =>
        Except.ok (some
          { path := p, change_type := ChangeType.Added,
            old_entry := none, new_entry := some newd,
            detected_at := now },
          insert_data p newd db)

/-- `ScanResults` from `fim.rs` (the duration field is not modelled). -/
structure ScanResults where
  files_scanned : Nat
  files_added : Nat
  files_modified : Nat
  files_deleted : Nat
  errors : Nat
  total_size : Nat
  deriving DecidableEq, Repr

/-- The zero-initialised `ScanResults` every scan starts from. -/
def emptyResults : ScanResults :=
  { files_scanned := 0, files_added := 0, files_modified := 0,
    files_deleted := 0, errors := 0, total_size := 0 }

/-- A scan's outcome: the statistics, the store afterwards, and the
change records handed to `handle_file_change` (hence to every registered
subscriber), in emission order. -/
structure ScanOut where
  results : ScanResults
  db : Db
  changes : List FileChange

/-- One iteration of the `baseline_scan` result loop: on success the
counters grow and the entry is inserted; on failure only `errors` grows.
No change record is ever emitted here — `baseline_scan` never calls
`handle_file_change`. -/
def baseline_step (H : HashFns) (cfg : HashConfig) (maxsz : Option Nat)
    (now : Timestamp) (st : ScanOut) (f : String × FileState) : ScanOut :=
  match scan_single_file H cfg maxsz now f.2 with
  | Except.error _ =>
    { st with results := { st.results with errors := st.results.errors + 1 } }
  | Except.ok entry =>
    { results := { st.results with
        files_scanned := st.results.files_scanned + 1,
        total_size := st.results.total_size + f.2.size,
        files_added := st.results.files_added + 1 },
      db := insert_data f.1 entry st.db,
      changes := st.changes }

/-- `FimEngine::baseline_scan` over the sorted file list the walker
produced: mark everything unscanned, fingerprint and insert each file,
then delete the rows that stayed unscanned (`files_deleted` is assigned
that count). Transaction begin/commit and the periodic `force_commit`
do not change the visible store contents and are omitted. -/
def baseline_scan (H : HashFns) (cfg : HashConfig) (maxsz : Option Nat)
    (now : Timestamp) (files : List (String × FileState)) (db : Db) :
    ScanOut :=
  let db0 := (set_all_unscanned db).2
  let st := files.foldl (baseline_step H cfg maxsz now)
    ⟨emptyResults, db0, []⟩
  let del := delete_not_scanned st.db
  { st with
    db := del.2,
    results := { st.results with files_deleted := del.1 } }

/-- One iteration of the `incremental_scan` loop: classify the path,
emit any change to the handlers, and bump the counter matching the
change kind (`Added`/`Deleted`/everything else as modified). -/
def incremental_step (H : HashFns) (cfg : HashConfig) (maxsz : Option Nat)
    (now : Timestamp) (st : ScanOut) (f : String × Option FileState) :
    ScanOut :=
  match check_file_changes H cfg maxsz now f.1 f.2 st.db with
  | Except.error _ =>
    { st with results := { st.results with errors := st.results.errors + 1 } }
  | Except.ok (none, db') =>
    { st with
      db := db',
      results := { st.results with
        files_scanned := st.results.files_scanned + 1 } }
  | Except.ok (some ch, db') =>
    let res := { st.results with
      files_scanned := st.results.files_scanned + 1 }
    let res :=
      match ch.change_type with
      | ChangeType.Added => { res with files_added := res.files_added + 1 }
      | ChangeType.Deleted =>
        { res with files_deleted := res.files_deleted + 1 }
      | _ => { res with files_modified := res.files_modified + 1 }
    { results := res, db := db', changes := st.changes ++ [ch] }

/-- `FimEngine::incremental_scan`: mark everything unscanned, run the
single-path comparison over the walked files, then delete the rows that
stayed unscanned, adding their count to `files_deleted`. -/
def incremental_scan (H : HashFns) (cfg : HashConfig) (maxsz : Option Nat)
    (now : Timestamp) (files : List (String × Option FileState)) (db : Db) :
    ScanOut :=
  let db0 := (set_all_unscanned db).2
  let st := files.foldl (incremental_step H cfg maxsz now)
    ⟨emptyResults, db0, []⟩
  let del := delete_not_scanned st.db
  { st with
    db := del.2,
    results := { st.results with
      files_deleted := st.results.files_deleted + del.1 } }

/-- Whether a walked path makes the incremental step fail: an existing
file over the size ceiling (deleted paths never error). -/
def sizeRejected (maxsz : Option Nat) (f : String × Option FileState) :
    Bool :=
  match f.2 with
  | some fs => !scan_succeeds maxsz fs
  | none => false

/-! ## The watcher (`watcher.rs`)

Filenames and patterns are lists of characters; a path is its list of
components (the filename being the last). The processing time of each
debounced event (the `Instant::now()` inside `should_throttle`) is
carried on the event in milliseconds. The delivered event keeps the
kind and path; the timestamp/size/directory fields `convert_event`
also fills are metadata reads that affect no control flow. -/

/-- `FimWatcher::matches_pattern`: the hand-rolled glob subset. -/
def matches_pattern (name pattern : List Char) : Bool :=
  if pattern = ['*'] then true
  else if pattern.head? = some '*' ∧ 1 < pattern.length then
    (pattern.drop 1).isSuffixOf name
  else if pattern.getLast? = some '*' ∧ 1 < pattern.length then
    pattern.dropLast.isPrefixOf name
  else name == pattern

/-- `Path::file_name` of a component list (empty for an empty path). -/
def filenameOf (p : List (List Char)) : List Char :=
  p.getLast?.getD []

/-- The characters after the last `.` of a filename tail, when a `.`
occurs in it. -/
def extAfterLastDot : List Char → Option (List Char)
  | [] => none
  | c :: cs =>
    match extAfterLastDot cs with
    | some e => some e
    | none => if c = '.' then some cs else none

/-- `Path::extension` of a filename: the portion after the last `.`,
except that `..` and names whose only `.` is leading have none. -/
def extensionOf (f : List Char) : Option (List Char) :=
  if f = ['.', '.'] then none
  else
    match f with
    | [] => none
    | _ :: cs => extAfterLastDot cs

/-- The watcher's filter configuration (`WatchConfig`); the fields that
only wire up the OS watcher — roots, debounce window, recursion flag —
are not part of the filtering model. -/
structure WatchConfig where
  ignore_patterns : List (List Char)
  ignore_extensions : List (List Char)
  ignore_directories : List (List Char)
  max_events_per_second : Nat

/-- `FimWatcher::should_ignore_path`: filename globs, then extension
list, then ignored directory names among the components. -/
def should_ignore_path (p : List (List Char)) (cfg : WatchConfig) : Bool :=
  cfg.ignore_patterns.any (fun pat => matches_pattern (filenameOf p) pat)
  || (match extensionOf (filenameOf p) with
      | some e => cfg.ignore_extensions.contains e
      | none => false)
  || p.any (fun comp => cfg.ignore_directories.contains comp)

/-- `EventCounter`: the token counter behind the rate limit; `last_reset`
is an instant in milliseconds. -/
structure EventCounter where
  count : Nat
  last_reset : Nat
  deriving DecidableEq, Repr

/-- `EventCounter::should_throttle`: reset the window after a full
second, count the event, and throttle when the count exceeds the
configured maximum. -/
def should_throttle (now : Nat) (maxPerSecond : Nat) (c : EventCounter) :
    Bool × EventCounter :=
  let c1 := if 1000 ≤ now - c.last_reset then ⟨0, now⟩ else c
  let c2 : EventCounter := ⟨c1.count + 1, c1.last_reset⟩
  (decide (maxPerSecond < c2.count), c2)

/-- The `notify` event kinds reaching `convert_event`. -/
inductive RawKind where
  | create
  | modify
  | remove
  | access
  | other
  deriving DecidableEq, Repr

/-- `FimEventKind` from `watcher.rs`. -/
inductive FimEventKind where
  | Created
  | Modified
  | Deleted
  | MovedFrom (src : List (List Char))
  | MovedTo (dst : List (List Char))
  | AttributeChanged
  | Unknown
  deriving DecidableEq, Repr

/-- A debounced event as `handle_debounced_events` receives it: the
processing instant (ms), the first path of the event, and its kind. -/
structure DebEvent where
  time : Nat
  path : List (List Char)
  kind : RawKind
  deriving DecidableEq, Repr

/-- A delivered FIM event (`FimEvent` without the metadata fields). -/
structure FimEventM where
  kind : FimEventKind
  path : List (List Char)
  deriving DecidableEq, Repr

/-- The kind mapping of `convert_event`. -/
def convert_kind : RawKind → FimEventKind
  | RawKind.create => FimEventKind.Created
  | RawKind.modify => FimEventKind.Modified
  | RawKind.remove => FimEventKind.Deleted
  | RawKind.access => FimEventKind.AttributeChanged
  | RawKind.other => FimEventKind.Unknown

/-- `FimWatcher::convert_event`: drop ignored paths, otherwise map the
kind and keep the path. -/
def convert_event (cfg : WatchConfig) (e : DebEvent) : Option FimEventM :=
  if should_ignore_path e.path cfg then none
  else some { kind := convert_kind e.kind, path := e.path }

/-- One event of the `handle_debounced_events` loop: the throttle check
runs first (and always advances the counter); only events that pass it
are offered to `convert_event` and, if not filtered, delivered. -/
def handle_step (cfg : WatchConfig)
    (acc : List FimEventM × EventCounter) (e : DebEvent) :
    List FimEventM × EventCounter :=
  let t := should_throttle e.time cfg.max_events_per_second acc.2
  if t.1 then (acc.1, t.2)
  else
    match convert_event cfg e with
    | some fe => (acc.1 ++ [fe], t.2)
    | none => (acc.1, t.2)

/-- `FimWatcher::handle_debounced_events` over one debounced batch:
the delivered events in order, and the counter afterwards. -/
def handle_debounced_events (cfg : WatchConfig) (c : EventCounter)
    (evs : List DebEvent) : List FimEventM × EventCounter :=
  evs.foldl (handle_step cfg) ([], c)

/-! ## Shared concrete values for witnesses -/

/-- A concrete digest assignment for evaluating the model: injective
tagging, never empty and never colliding across distinct inputs. -/
def sampleHash : HashFns :=
  ⟨fun s => "b3-" ++ s, fun s => "s2-" ++ s⟩

/-- A concrete stored row. -/
def sampleRow : DbRow :=
  { path := "/etc/passwd", size := 100, perm := "644", uid := 0, gid := 0,
    md5 := none, sha1 := none, sha256 := none, blake3 := "b3-root",
    mtime := 50, ctime := 50, atime := 50, inode := 9, dev := 1,
    scanned := true }

/-- A concrete fingerprint with sub-second timestamp parts. -/
def sampleEntry : FimEntryData :=
  { size := 5, perm := "644", uid := 1000, gid := 1000, md5 := none,
    sha1 := none, sha256 := none, blake3 := "b3-hello",
    mtime := ⟨100, 7⟩, ctime := ⟨100, 7⟩, atime := ⟨200, 3⟩,
    inode := 7, dev := 1, scanned := true }

/-- A concrete file whose mtime has a nonzero nanosecond part. -/
def sampleFile : FileState :=
  { size := 5, perm := "644", uid := 1000, gid := 1000,
    content := "hello", mtime := ⟨100, 500000000⟩, ctime := ⟨100, 0⟩,
    inode := 7, dev := 1 }

/-- The same file with whole-second timestamps. -/
def sampleFileWhole : FileState :=
  { size := 5, perm := "644", uid := 1000, gid := 1000,
    content := "hello", mtime := ⟨100, 0⟩, ctime := ⟨100, 0⟩,
    inode := 7, dev := 1 }

/-- A file above a ten-byte size ceiling. -/
def bigFile : FileState :=
  { size := 11, perm := "644", uid := 1000, gid := 1000,
    content := "0123456789X", mtime := ⟨100, 0⟩, ctime := ⟨100, 0⟩,
    inode := 8, dev := 1 }

/-- Three concrete files for the baseline scenario of the spec. -/
def threeFiles : List (String × FileState) :=
  [("/d/a.txt",
    { size := 5, perm := "644", uid := 1000, gid := 1000,
      content := "hello", mtime := ⟨100, 0⟩, ctime := ⟨100, 0⟩,
      inode := 7, dev := 1 }),
   ("/d/b.txt",
    { size := 5, perm := "644", uid := 1000, gid := 1000,
      content := "world", mtime := ⟨101, 0⟩, ctime := ⟨101, 0⟩,
      inode := 8, dev := 1 }),
   ("/d/c.txt",
    { size := 0, perm := "644", uid := 1000, gid := 1000,
      content := "", mtime := ⟨102, 0⟩, ctime := ⟨102, 0⟩,
      inode := 9, dev := 1 })]

/-- A hash configuration with BLAKE3 disabled (and no other digest). -/
def cfgNoBlake3 : HashConfig :=
  { use_blake3 := false, use_sha256 := false, use_sha1 := false,
    use_md5 := false, use_mmap := true, parallel_threshold := 1048576 }

/-- The change records a baseline scan followed by an immediate
incremental scan over the same unchanged files emits: the baseline runs
on an empty store at `t1`, the incremental re-reads the same filesystem
state at `t2`. -/
def unchangedRescan (H : HashFns) (cfg : HashConfig) (maxsz : Option Nat)
    (t1 t2 : Timestamp) (files : List (String × FileState)) :
    List FileChange :=
  (incremental_scan H cfg maxsz t2 (files.map (fun f => (f.1, some f.2)))
    (baseline_scan H cfg maxsz t1 files []).db).changes

/-- A two-file incremental input whose first file is over a ten-byte
ceiling. -/
def files9 : List (String × Option FileState) :=
  [("/a", some bigFile), ("/b", some sampleFileWhole)]

/-- A watcher configuration with a one-event budget and a `*.tmp`
ignore glob. -/
def cfg5 : WatchConfig :=
  { ignore_patterns := ["*.tmp".toList], ignore_extensions := [],
    ignore_directories := [], max_events_per_second := 1 }

/-- A debounced event on an ignored path. -/
def ev1 : DebEvent := ⟨0, ["junk.tmp".toList], RawKind.create⟩

/-- A debounced event on a path that survives the filters. -/
def ev2 : DebEvent := ⟨0, ["good.txt".toList], RawKind.create⟩

/-! ## Theorems -/

/-- **C1.** The change classification is a strict priority chain: the first
matching kind wins. `HashChanged` exactly when the primary (BLAKE3) hashes
differ; otherwise `SizeChanged` when the sizes differ (so `SizeChanged` is
only ever emitted with matching primary hashes); otherwise
`PermissionChanged` when any of perm, uid, gid differ; otherwise
`TimestampChanged` when mtime or ctime differ; otherwise no change. -/
theorem claim_C1_change_priority (old new : FimEntryData) :
    (old.blake3 ≠ new.blake3 →
      detect_change_type old new = some ChangeType.HashChanged)
    ∧ (old.blake3 = new.blake3 → old.size ≠ new.size →
      detect_change_type old new = some ChangeType.SizeChanged)
    ∧ (old.blake3 = new.blake3 → old.size = new.size →
      (old.perm ≠ new.perm ∨ old.uid ≠ new.uid ∨ old.gid ≠ new.gid) →
      detect_change_type old new = some ChangeType.PermissionChanged)
    ∧ (old.blake3 = new.blake3 → old.size = new.size →
      old.perm = new.perm → old.uid = new.uid → old.gid = new.gid →
      (old.mtime ≠ new.mtime ∨ old.ctime ≠ new.ctime) →
      detect_change_type old new = some ChangeType.TimestampChanged)
    ∧ (old.blake3 = new.blake3 → old.size = new.size →
      old.perm = new.perm → old.uid = new.uid → old.gid = new.gid →
      old.mtime = new.mtime → old.ctime = new.ctime →
      detect_change_type old new = none) := by
  unfold detect_change_type
  refine ⟨?_, ?_, ?_, ?_, ?_⟩ <;> intros <;> split_ifs <;> simp_all

/-- Witness for C1: concrete fingerprints differing only in size are
classified `SizeChanged` by the priority chain. -/
theorem claim_C1_change_priority_witness :
    detect_change_type sampleEntry { sampleEntry with size := 11 }
      = some ChangeType.SizeChanged :=
  (claim_C1_change_priority _ _).2.1 (by decide) (by decide)

/-! ### Store lemmas -/

/-- The sorted view of the table is sorted by path. -/
theorem sortRows_sorted (db : Db) :
    List.Sorted (fun a b : DbRow => a.path ≤ b.path) (sortRows db) := by
  haveI : IsTotal DbRow (fun a b : DbRow => a.path ≤ b.path) :=
    ⟨fun a b => le_total a.path b.path⟩
  haveI : IsTrans DbRow (fun a b : DbRow => a.path ≤ b.path) :=
    ⟨fun _ _ _ h1 h2 => le_trans h1 h2⟩
  exact List.sorted_insertionSort _ db

/-- The sorted view is a permutation of the table. -/
theorem sortRows_perm (db : Db) : List.Perm (sortRows db) db :=
  List.perm_insertionSort _ db

/-- Two tables holding the same rows (as a multiset, with pairwise
distinct paths) have the same sorted view. -/
theorem sortRows_eq_of_perm {db₁ db₂ : Db} (hp : List.Perm db₁ db₂)
    (hn : (db₁.map (fun r => r.path)).Nodup) :
    sortRows db₁ = sortRows db₂ := by
  haveI : IsAntisymm DbRow (fun a b : DbRow => a.path < b.path) :=
    ⟨fun _ _ h1 h2 => absurd h2 (lt_asymm h1)⟩
  have hps : List.Perm (sortRows db₁) (sortRows db₂) :=
    (sortRows_perm db₁).trans (hp.trans (sortRows_perm db₂).symm)
  have hn₁ : ((sortRows db₁).map (fun r => r.path)).Nodup :=
    (((sortRows_perm db₁).map _).nodup_iff).mpr hn
  have hn₂ : ((sortRows db₂).map (fun r => r.path)).Nodup :=
    ((hps.map _).nodup_iff).mp hn₁
  have key : ∀ l : Db, List.Sorted (fun a b : DbRow => a.path ≤ b.path) l →
      (l.map (fun r => r.path)).Nodup →
      List.Sorted (fun a b : DbRow => a.path < b.path) l := by
    intro l hs hnd
    have hne : l.Pairwise (fun a b : DbRow => a.path ≠ b.path) :=
      List.pairwise_map.mp hnd
    exact (List.Pairwise.and hs hne).imp (fun h => lt_of_le_of_ne h.1 h.2)
  exact List.eq_of_perm_of_sorted hps
    (key _ (sortRows_sorted db₁) hn₁) (key _ (sortRows_sorted db₂) hn₂)

/-- Inserting entries with pairwise distinct paths into a table that
contains none of those paths appends their rows in order. -/
theorem foldl_insert_eq_append (es : List (String × FimEntryData)) :
    ∀ acc : Db, (es.map Prod.fst).Nodup →
    (∀ e ∈ es, ∀ r ∈ acc, r.path ≠ e.1) →
    es.foldl (fun a e => insert_data e.1 e.2 a) acc
      = acc ++ es.map (fun e => entryToRow e.1 e.2) := by
  induction es with
  | nil => intro acc _ _; simp
  | cons e es ih =>
    intro acc hnd hdisj
    have hfilter : acc.filter (fun r => r.path ≠ e.1) = acc := by
      rw [List.filter_eq_self]
      intro r hr
      simpa using hdisj e (by simp) r hr
    have step : insert_data e.1 e.2 acc = acc ++ [entryToRow e.1 e.2] := by
      unfold insert_data; rw [hfilter]
    have hnd' : (es.map Prod.fst).Nodup := by
      simp only [List.map_cons, List.nodup_cons] at hnd
      exact hnd.2
    have hhd : e.1 ∉ es.map Prod.fst := by
      simp only [List.map_cons, List.nodup_cons] at hnd
      exact hnd.1
    have hdisj' : ∀ e' ∈ es, ∀ r ∈ acc ++ [entryToRow e.1 e.2],
        r.path ≠ e'.1 := by
      intro e' he' r hr
      rcases List.mem_append.mp hr with h | h
      · exact hdisj e' (List.mem_cons_of_mem _ he') r h
      · simp only [List.mem_singleton] at h
        subst h
        show e.1 ≠ e'.1
        intro hEq
        exact hhd (hEq ▸ List.mem_map_of_mem Prod.fst he')
    rw [List.foldl_cons, step, ih (acc ++ [entryToRow e.1 e.2]) hnd' hdisj']
    simp

/-- **C4.** `data_checksum` digests the concatenation of each row's
primary hash in ascending path order; two stores holding identical rows
(any order, distinct paths) agree, and the checksum of a store built by
inserting a set of entries does not depend on the insertion order. -/
theorem claim_C4_data_checksum (hash : String → String) (db db₂ : Db)
    (es es₂ : List (String × FimEntryData)) :
    get_data_checksum hash db
      = hash (String.join ((sortRows db).map (fun r => r.blake3)))
    ∧ (List.Perm db db₂ → (db.map (fun r => r.path)).Nodup →
        get_data_checksum hash db = get_data_checksum hash db₂)
    ∧ ((es.map Prod.fst).Nodup → List.Perm es es₂ →
        get_data_checksum hash
          (es.foldl (fun a e => insert_data e.1 e.2 a) [])
        = get_data_checksum hash
          (es₂.foldl (fun a e => insert_data e.1 e.2 a) [])) := by
  refine ⟨?_, ?_, ?_⟩
  · unfold get_data_checksum String.join
    rw [List.foldl_map]
  · intro hp hn
    unfold get_data_checksum
    rw [sortRows_eq_of_perm hp hn]
  · intro hn hp
    have hn₂ : (es₂.map Prod.fst).Nodup := ((hp.map Prod.fst).nodup_iff).mp hn
    have h1 := foldl_insert_eq_append es [] hn (by intro _ _ r hr; cases hr)
    have h2 := foldl_insert_eq_append es₂ [] hn₂ (by intro _ _ r hr; cases hr)
    simp only [List.nil_append] at h1 h2
    rw [h1, h2]
    unfold get_data_checksum
    have hperm : List.Perm (es.map (fun e => entryToRow e.1 e.2))
        (es₂.map (fun e => entryToRow e.1 e.2)) := hp.map _
    have hpaths : ((es.map (fun e => entryToRow e.1 e.2)).map
        (fun r => r.path)).Nodup := by
      rw [List.map_map]
      exact hn
    rw [sortRows_eq_of_perm hperm hpaths]

/-- Witness for C4: a concrete two-entry store built in either insertion
order yields the same checksum, and the checksum is the digest of the
path-ordered hash concatenation. -/
theorem claim_C4_data_checksum_witness :
    get_data_checksum (fun s => "b3-" ++ s)
      ([("/b", sampleEntry), ("/a", sampleEntry)].foldl
        (fun a e => insert_data e.1 e.2 a) [])
    = get_data_checksum (fun s => "b3-" ++ s)
      ([("/a", sampleEntry), ("/b", sampleEntry)].foldl
        (fun a e => insert_data e.1 e.2 a) []) :=
  (claim_C4_data_checksum (fun s => "b3-" ++ s) [] []
    [("/b", sampleEntry), ("/a", sampleEntry)]
    [("/a", sampleEntry), ("/b", sampleEntry)]).2.2
    (by decide) (by decide)

/-- **C6 (counterexample).** The claim says `set_all_unscanned` returns
the count of rows it updated. On a one-row store it updates one row yet
returns `FIMDB_OK = 0`, not `1`. -/
theorem claim_C6_counterexample :
    (set_all_unscanned [sampleRow]).1 = 0
    ∧ ((set_all_unscanned [sampleRow]).2.filter (fun r => !r.scanned)).length
      = 1
    ∧ (0 : Int) ≠ 1 := by
  refine ⟨rfl, by decide, by decide⟩

/-- **C6 (amended).** `set_all_unscanned` sets `scanned = false` on every
row and on no other field (visible through `get_path` as well), but
returns the constant `FIMDB_OK` (0), not the number of rows updated. -/
theorem claim_C6_amended (db : Db) :
    (set_all_unscanned db).1 = FIMDB_OK
    ∧ (∀ r ∈ (set_all_unscanned db).2, r.scanned = false)
    ∧ (set_all_unscanned db).2 = db.map (fun r => { r with scanned := false })
    ∧ (∀ p, get_path p (set_all_unscanned db).2
        = (get_path p db).map
          (fun e => ⟨e.path, { e.data with scanned := false }⟩)) := by
  refine ⟨rfl, ?_, rfl, ?_⟩
  · intro r hr
    simp only [set_all_unscanned, List.mem_map] at hr
    obtain ⟨s, _, rfl⟩ := hr
    rfl
  · intro p
    induction db with
    | nil => rfl
    | cons r rest ih =>
      by_cases h : r.path = p
      · simp [get_path, set_all_unscanned, List.find?_cons, h, rowToEntryData]
      · simp only [get_path, set_all_unscanned, List.map_cons,
          List.find?_cons] at ih ⊢
        simp only [decide_eq_false h]
        simpa [set_all_unscanned] using ih

/-- Witness for C6 (amended): the concrete one-row store. -/
theorem claim_C6_amended_witness :
    (set_all_unscanned [sampleRow]).1 = FIMDB_OK
    ∧ (set_all_unscanned [sampleRow]).2
      = [{ sampleRow with scanned := false }] :=
  ⟨(claim_C6_amended [sampleRow]).1, (claim_C6_amended [sampleRow]).2.2.1⟩

/-- **C7.** `put` then `get_by_path` returns the fingerprint bytewise
except that the three timestamps are truncated to whole seconds; `put`
is an upsert idempotent on identical input — the second `put` leaves the
table, and hence `data_checksum`, unchanged. -/
theorem claim_C7_put_get (p : String) (d : FimEntryData) (db : Db)
    (hash : String → String) :
    get_path p (insert_data p d db)
      = some ⟨p, { d with
          mtime := truncTs d.mtime, ctime := truncTs d.ctime,
          atime := truncTs d.atime }⟩
    ∧ insert_data p d (insert_data p d db) = insert_data p d db
    ∧ get_data_checksum hash (insert_data p d (insert_data p d db))
      = get_data_checksum hash (insert_data p d db) := by
  have h2 : insert_data p d (insert_data p d db) = insert_data p d db := by
    unfold insert_data
    rw [List.filter_append, List.filter_filter]
    simp [entryToRow]
  refine ⟨?_, h2, by rw [h2]⟩
  unfold get_path insert_data
  rw [List.find?_append]
  have hnone : (db.filter (fun r => r.path ≠ p)).find?
      (fun r => r.path = p) = none := by
    rw [List.find?_eq_none]
    intro x hx
    simp only [List.mem_filter, decide_not] at hx
    simpa using hx.2
  rw [hnone]
  simp [List.find?_cons, entryToRow, rowToEntryData, truncTs]

/-- Witness for C7: the concrete round trip truncates the sample entry's
sub-second timestamp parts and keeps everything else. -/
theorem claim_C7_put_get_witness :
    get_path "/a" (insert_data "/a" sampleEntry [])
      = some ⟨"/a", { sampleEntry with
          mtime := ⟨100, 0⟩, ctime := ⟨100, 0⟩, atime := ⟨200, 0⟩ }⟩ :=
  (claim_C7_put_get "/a" sampleEntry [] id).1

/-! ### Engine lemmas -/

/-- A file within the ceiling is fingerprinted as `scanEntry`. -/
theorem scan_single_file_ok (H : HashFns) (cfg : HashConfig)
    (maxsz : Option Nat) (now : Timestamp) (fs : FileState)
    (h : scan_succeeds maxsz fs = true) :
    scan_single_file H cfg maxsz now fs = Except.ok (scanEntry H cfg now fs) := by
  cases maxsz with
  | none => rfl
  | some m =>
    simp only [scan_succeeds, decide_eq_true_eq] at h
    show (if m < fs.size then Except.error ScanError.sizeExceeded
      else Except.ok (scanEntry H cfg now fs))
      = Except.ok (scanEntry H cfg now fs)
    rw [if_neg (by omega)]

/-- A file over the ceiling makes `scan_single_file` fail with the size
error. -/
theorem scan_single_file_err (H : HashFns) (cfg : HashConfig)
    (maxsz : Option Nat) (now : Timestamp) (fs : FileState)
    (h : scan_succeeds maxsz fs = false) :
    scan_single_file H cfg maxsz now fs
      = Except.error ScanError.sizeExceeded := by
  cases maxsz with
  | none => simp [scan_succeeds] at h
  | some m =>
    simp only [scan_succeeds, decide_eq_false_iff_not, not_le] at h
    show (if m < fs.size then Except.error ScanError.sizeExceeded
      else Except.ok (scanEntry H cfg now fs))
      = Except.error ScanError.sizeExceeded
    rw [if_pos h]

/-- The baseline loop body on a file within the ceiling. -/
theorem baseline_step_ok (H : HashFns) (cfg : HashConfig)
    (maxsz : Option Nat) (now : Timestamp) (st : ScanOut)
    (f : String × FileState) (h : scan_succeeds maxsz f.2 = true) :
    baseline_step H cfg maxsz now st f
      = { results := { st.results with
            files_scanned := st.results.files_scanned + 1,
            total_size := st.results.total_size + f.2.size,
            files_added := st.results.files_added + 1 },
          db := insert_data f.1 (scanEntry H cfg now f.2) st.db,
          changes := st.changes } := by
  unfold baseline_step
  rw [scan_single_file_ok _ _ _ _ _ h]

/-- The baseline loop body on a file over the ceiling. -/
theorem baseline_step_err (H : HashFns) (cfg : HashConfig)
    (maxsz : Option Nat) (now : Timestamp) (st : ScanOut)
    (f : String × FileState) (h : scan_succeeds maxsz f.2 = false) :
    baseline_step H cfg maxsz now st f
      = { st with results :=
          { st.results with errors := st.results.errors + 1 } } := by
  unfold baseline_step
  rw [scan_single_file_err _ _ _ _ _ h]

/-- The baseline loop never emits a change record, counts each accepted
file once in `files_scanned` and `files_added`, and counts each
rejected file once in `errors`. -/
theorem baseline_fold_spec (H : HashFns) (cfg : HashConfig)
    (maxsz : Option Nat) (now : Timestamp)
    (files : List (String × FileState)) :
    ∀ st : ScanOut,
    ((files.foldl (baseline_step H cfg maxsz now) st).changes = st.changes)
    ∧ ((files.foldl (baseline_step H cfg maxsz now) st).results.files_scanned
      = st.results.files_scanned
        + (files.filter (fun f => scan_succeeds maxsz f.2)).length)
    ∧ ((files.foldl (baseline_step H cfg maxsz now) st).results.files_added
      = st.results.files_added
        + (files.filter (fun f => scan_succeeds maxsz f.2)).length)
    ∧ ((files.foldl (baseline_step H cfg maxsz now) st).results.errors
      = st.results.errors
        + (files.filter (fun f => !scan_succeeds maxsz f.2)).length) := by
  induction files with
  | nil => intro st; simp
  | cons f fs ih =>
    intro st
    cases hok : scan_succeeds maxsz f.2 with
    | true =>
      rw [List.foldl_cons, baseline_step_ok _ _ _ _ _ _ hok]
      refine ⟨(ih _).1, ?_, ?_, ?_⟩
      · rw [(ih _).2.1]; simp [List.filter_cons, hok]; omega
      · rw [(ih _).2.2.1]; simp [List.filter_cons, hok]; omega
      · rw [(ih _).2.2.2]; simp [List.filter_cons, hok]
    | false =>
      rw [List.foldl_cons, baseline_step_err _ _ _ _ _ _ hok]
      refine ⟨(ih _).1, ?_, ?_, ?_⟩
      · rw [(ih _).2.1]; simp [List.filter_cons, hok]
      · rw [(ih _).2.2.1]; simp [List.filter_cons, hok]
      · rw [(ih _).2.2.2]; simp [List.filter_cons, hok]; omega

/-- **C3 (counterexample).** The claim says a baseline scan over three
files emits three `Added` records to subscribers. The code's baseline
scan never calls `handle_file_change`: it emits zero records (while
still reporting `files_scanned = 3`). -/
theorem claim_C3_counterexample :
    (baseline_scan sampleHash defaultHashConfig (some 1073741824) ⟨150, 0⟩
      threeFiles []).changes.length = 0
    ∧ (baseline_scan sampleHash defaultHashConfig (some 1073741824) ⟨150, 0⟩
      threeFiles []).results.files_scanned = 3
    ∧ (0 : Nat) ≠ 3 := by
  refine ⟨by decide, by decide, by decide⟩

/-- **C3 (amended).** A baseline scan emits no change record at all;
every file within the size ceiling is counted once in `files_scanned`
and once in `files_added` (so three files give `files_scanned = 3` and
`files_added = 3` but zero `Added` records delivered to subscribers),
and every rejected file is counted once in `errors`. -/
theorem claim_C3_baseline_no_emission (H : HashFns) (cfg : HashConfig)
    (maxsz : Option Nat) (now : Timestamp)
    (files : List (String × FileState)) (db : Db) :
    ((baseline_scan H cfg maxsz now files db).changes = [])
    ∧ ((baseline_scan H cfg maxsz now files db).results.files_scanned
      = (files.filter (fun f => scan_succeeds maxsz f.2)).length)
    ∧ ((baseline_scan H cfg maxsz now files db).results.files_added
      = (files.filter (fun f => scan_succeeds maxsz f.2)).length)
    ∧ ((baseline_scan H cfg maxsz now files db).results.errors
      = (files.filter (fun f => !scan_succeeds maxsz f.2)).length) := by
  have h := baseline_fold_spec H cfg maxsz now files
    ⟨emptyResults, (set_all_unscanned db).2, []⟩
  unfold baseline_scan
  refine ⟨h.1, ?_, ?_, ?_⟩
  · simpa [emptyResults] using h.2.1
  · simpa [emptyResults] using h.2.2.1
  · simpa [emptyResults] using h.2.2.2

/-- Witness for C3 (amended): the three-file baseline evaluates to zero
emitted records and counters equal to three. -/
theorem claim_C3_baseline_no_emission_witness :
    ((baseline_scan sampleHash defaultHashConfig (some 1073741824) ⟨150, 0⟩
      threeFiles []).changes = [])
    ∧ ((baseline_scan sampleHash defaultHashConfig (some 1073741824) ⟨150, 0⟩
      threeFiles []).results.files_added = 3) := by
  have h := claim_C3_baseline_no_emission sampleHash defaultHashConfig
    (some 1073741824) ⟨150, 0⟩ threeFiles []
  exact ⟨h.1, h.2.2.1.trans (by decide)⟩

/-- In every strategy branch of `hash_file`, the BLAKE3 field is the
digest of the whole content when `use_blake3` is enabled and the empty
string when it is disabled. -/
theorem hash_file_blake3_eq (H : HashFns) (cfg : HashConfig) (size : Nat)
    (content : String) :
    (hash_file H cfg size content).blake3
      = if cfg.use_blake3 then H.blake3 content else "" := by
  unfold hash_file hash_file_mmap hash_data_parallel hash_data_sequential
    hash_file_buffered hash_empty_file
  split_ifs <;> simp_all

/-- **C2 (code bug).** Baseline then immediate incremental over the same
single unchanged file: when the file's mtime carries a nonzero
nanosecond part, the store round trip truncates it to whole seconds
while the fresh fingerprint keeps it, so the incremental scan emits a
spurious `TimestampChanged` record; with whole-second timestamps the
same pipeline emits nothing. -/
theorem claim_C2_subsecond_timestamp_bug :
    ((unchangedRescan sampleHash defaultHashConfig (some 1073741824)
      ⟨150, 0⟩ ⟨250, 0⟩ [("/d/a.txt", sampleFile)]).map
        (fun c => c.change_type)) = [ChangeType.TimestampChanged]
    ∧ (unchangedRescan sampleHash defaultHashConfig (some 1073741824)
      ⟨150, 0⟩ ⟨250, 0⟩ [("/d/a.txt", sampleFileWhole)]) = [] := by
  refine ⟨by decide, by decide⟩

/-- **C8 (counterexample).** The claim says a configuration with BLAKE3
disabled is rejected by the engine as a configuration error. Instead,
scanning under such a configuration succeeds and writes an entry whose
`primary_hash` is the empty string to the store. -/
theorem claim_C8_counterexample :
    ((scan_single_file sampleHash cfgNoBlake3 (some 1073741824) ⟨200, 0⟩
      sampleFileWhole).toOption.map (fun e => e.blake3)) = some ""
    ∧ ((baseline_scan sampleHash cfgNoBlake3 (some 1073741824) ⟨200, 0⟩
      [("/d/a.txt", sampleFileWhole)] []).db.map (fun r => r.blake3))
      = [""] := by
  refine ⟨by decide, by decide⟩

/-- **C8 (amended).** The engine never validates the hash configuration:
for every configuration — including one with `use_blake3` disabled — a
file within the size ceiling scans successfully, and the entry's
`primary_hash` is the BLAKE3 digest of the content exactly when
`use_blake3` is enabled, and the empty string when it is disabled. -/
theorem claim_C8_no_config_validation (H : HashFns) (cfg : HashConfig)
    (maxsz : Option Nat) (now : Timestamp) (fs : FileState)
    (h : scan_succeeds maxsz fs = true) :
    scan_single_file H cfg maxsz now fs
      = Except.ok (scanEntry H cfg now fs)
    ∧ (scanEntry H cfg now fs).blake3
      = (if cfg.use_blake3 then H.blake3 fs.content else "") := by
  refine ⟨scan_single_file_ok H cfg maxsz now fs h, ?_⟩
  show (hash_file H cfg fs.size fs.content).blake3 = _
  exact hash_file_blake3_eq H cfg fs.size fs.content

/-- Witness for C8 (amended): under the BLAKE3-disabled configuration
the concrete scan succeeds with an empty primary hash. -/
theorem claim_C8_no_config_validation_witness :
    scan_single_file sampleHash cfgNoBlake3 (some 1073741824) ⟨200, 0⟩
      sampleFileWhole
      = Except.ok (scanEntry sampleHash cfgNoBlake3 ⟨200, 0⟩ sampleFileWhole)
    ∧ (scanEntry sampleHash cfgNoBlake3 ⟨200, 0⟩ sampleFileWhole).blake3
      = "" := by
  have h := claim_C8_no_config_validation sampleHash cfgNoBlake3
    (some 1073741824) ⟨200, 0⟩ sampleFileWhole (by decide)
  exact ⟨h.1, h.2.trans (by decide)⟩

/-- The incremental comparison on an oversized existing file fails with
the size error before touching the store. -/
theorem check_file_changes_err (H : HashFns) (cfg : HashConfig)
    (maxsz : Option Nat) (now : Timestamp) (p : String) (fs : FileState)
    (db : Db) (h : scan_succeeds maxsz fs = false) :
    check_file_changes H cfg maxsz now p (some fs) db
      = Except.error ScanError.sizeExceeded := by
  have hs := scan_single_file_err H cfg maxsz now fs h
  simp only [check_file_changes, hs]

/-- The incremental comparison on an accepted existing file writes the
fresh fingerprint to the store and returns some classification. -/
theorem check_file_changes_some_ok (H : HashFns) (cfg : HashConfig)
    (maxsz : Option Nat) (now : Timestamp) (p : String) (fs : FileState)
    (db : Db) (h : scan_succeeds maxsz fs = true) :
    ∃ ch : Option FileChange,
      check_file_changes H cfg maxsz now p (some fs) db
        = Except.ok (ch, insert_data p (scanEntry H cfg now fs) db) := by
  have hs := scan_single_file_ok H cfg maxsz now fs h
  cases hg : get_path p db with
  | none =>
    refine ⟨some
      { path := p, change_type := ChangeType.Added, old_entry := none,
        new_entry := some (scanEntry H cfg now fs), detected_at := now },
      ?_⟩
    simp only [check_file_changes, hs, hg]
  | some o =>
    cases hd : detect_change_type o.data (scanEntry H cfg now fs) with
    | none =>
      refine ⟨none, ?_⟩
      simp only [check_file_changes, hs, hg, hd]
    | some ct =>
      refine ⟨some
        { path := p, change_type := ct, old_entry := some o.data,
          new_entry := some (scanEntry H cfg now fs), detected_at := now },
        ?_⟩
      simp only [check_file_changes, hs, hg, hd]

/-- The incremental loop body on an oversized file only bumps `errors`. -/
theorem incremental_step_err (H : HashFns) (cfg : HashConfig)
    (maxsz : Option Nat) (now : Timestamp) (st : ScanOut)
    (f : String × Option FileState) (h : sizeRejected maxsz f = true) :
    incremental_step H cfg maxsz now st f
      = { st with results :=
          { st.results with errors := st.results.errors + 1 } } := by
  obtain ⟨p, o⟩ := f
  cases o with
  | none => simp [sizeRejected] at h
  | some fs =>
    have h' : scan_succeeds maxsz fs = false := by
      simpa [sizeRejected] using h
    have hc := check_file_changes_err H cfg maxsz now p fs st.db h'
    simp only [incremental_step, hc]

/-- The incremental loop body on a path it can process leaves `errors`
unchanged and counts the path once in `files_scanned`. -/
theorem incremental_step_ok_counts (H : HashFns) (cfg : HashConfig)
    (maxsz : Option Nat) (now : Timestamp) (st : ScanOut)
    (f : String × Option FileState) (h : sizeRejected maxsz f = false) :
    ((incremental_step H cfg maxsz now st f).results.errors
      = st.results.errors)
    ∧ ((incremental_step H cfg maxsz now st f).results.files_scanned
      = st.results.files_scanned + 1) := by
  obtain ⟨p, o⟩ := f
  cases o with
  | none =>
    cases hg : get_path p st.db with
    | none => simp [incremental_step, check_file_changes, hg]
    | some old => simp [incremental_step, check_file_changes, hg]
  | some fs =>
    have h' : scan_succeeds maxsz fs = true := by
      simpa [sizeRejected] using h
    obtain ⟨ch, hc⟩ := check_file_changes_some_ok H cfg maxsz now p fs st.db h'
    cases ch with
    | none => simp [incremental_step, hc]
    | some c =>
      cases hct : c.change_type <;> simp [incremental_step, hc, hct]

/-- Error and scanned counters of the incremental loop: each oversized
file adds one error, every other path adds one scanned file, and the
loop never stops early. -/
theorem incremental_fold_counts (H : HashFns) (cfg : HashConfig)
    (maxsz : Option Nat) (now : Timestamp)
    (files : List (String × Option FileState)) :
    ∀ st : ScanOut,
    ((files.foldl (incremental_step H cfg maxsz now) st).results.errors
      = st.results.errors + (files.filter (sizeRejected maxsz)).length)
    ∧ ((files.foldl (incremental_step H cfg maxsz now) st).results.files_scanned
      = st.results.files_scanned
        + (files.filter (fun f => !sizeRejected maxsz f)).length) := by
  induction files with
  | nil => intro st; simp
  | cons f fs ih =>
    intro st
    rw [List.foldl_cons]
    cases hr : sizeRejected maxsz f with
    | true =>
      rw [incremental_step_err _ _ _ _ _ _ hr]
      constructor
      · rw [(ih _).1]; simp [List.filter_cons, hr]; omega
      · rw [(ih _).2]; simp [List.filter_cons, hr]
    | false =>
      have hc := incremental_step_ok_counts H cfg maxsz now st f hr
      constructor
      · rw [(ih _).1, hc.1]; simp [List.filter_cons, hr]
      · rw [(ih _).2, hc.2]; simp [List.filter_cons, hr]; omega

/-- The store after one incremental step: unchanged, one path removed,
or — only when the file exists and passes the ceiling — one upsert at
the path's key. -/
theorem incremental_step_db (H : HashFns) (cfg : HashConfig)
    (maxsz : Option Nat) (now : Timestamp) (st : ScanOut)
    (f : String × Option FileState) :
    ((incremental_step H cfg maxsz now st f).db = st.db)
    ∨ ((incremental_step H cfg maxsz now st f).db = remove_path f.1 st.db)
    ∨ (∃ fs d, f.2 = some fs ∧ scan_succeeds maxsz fs = true
        ∧ (incremental_step H cfg maxsz now st f).db
          = insert_data f.1 d st.db) := by
  obtain ⟨p, o⟩ := f
  cases o with
  | none =>
    cases hg : get_path p st.db with
    | none =>
      left; simp [incremental_step, check_file_changes, hg]
    | some old =>
      right; left; simp [incremental_step, check_file_changes, hg]
  | some fs =>
    cases hs : scan_succeeds maxsz fs with
    | false =>
      left
      have hc := check_file_changes_err H cfg maxsz now p fs st.db hs
      simp [incremental_step, hc]
    | true =>
      obtain ⟨ch, hc⟩ := check_file_changes_some_ok H cfg maxsz now p fs st.db hs
      right; right
      refine ⟨fs, scanEntry H cfg now fs, rfl, hs, ?_⟩
      cases ch with
      | none => simp [incremental_step, hc]
      | some c => cases hct : c.change_type <;> simp [incremental_step, hc, hct]

/-- A key occurring once in the walked list determines its payload. -/
theorem nodup_key_unique {l : List (String × Option FileState)}
    (hnd : (l.map Prod.fst).Nodup) {p : String} {a b : Option FileState}
    (ha : (p, a) ∈ l) (hb : (p, b) ∈ l) : a = b := by
  induction l with
  | nil => cases ha
  | cons x xs ih =>
    simp only [List.map_cons, List.nodup_cons] at hnd
    rcases List.mem_cons.mp ha with ha1 | ha2 <;>
      rcases List.mem_cons.mp hb with hb1 | hb2
    · injection ha1.trans hb1.symm with _ h2
    · exfalso
      apply hnd.1
      have hmem : p ∈ xs.map Prod.fst := List.mem_map_of_mem Prod.fst hb2
      rw [← ha1]
      exact hmem
    · exfalso
      apply hnd.1
      have hmem : p ∈ xs.map Prod.fst := List.mem_map_of_mem Prod.fst ha2
      rw [← hb1]
      exact hmem
    · exact ih hnd.2 ha2 hb2

/-- Rows at a key no accepted file of the walk carries stay unscanned
through the whole incremental loop. -/
theorem incremental_fold_unscanned (H : HashFns) (cfg : HashConfig)
    (maxsz : Option Nat) (now : Timestamp) (p : String)
    (files : List (String × Option FileState)) :
    ∀ st : ScanOut,
    (∀ r ∈ st.db, r.path = p → r.scanned = false) →
    (∀ fs, (p, some fs) ∈ files → scan_succeeds maxsz fs = false) →
    ∀ r ∈ (files.foldl (incremental_step H cfg maxsz now) st).db,
      r.path = p → r.scanned = false := by
  induction files with
  | nil => intro st hP _ r hr; exact hP r hr
  | cons f fs ih =>
    intro st hP hC
    rw [List.foldl_cons]
    apply ih
    · intro r hr hrp
      rcases incremental_step_db H cfg maxsz now st f with
        hdb | hdb | ⟨fs', d, hf2, hsc, hdb⟩
      · rw [hdb] at hr; exact hP r hr hrp
      · rw [hdb] at hr
        exact hP r (List.mem_of_mem_filter hr) hrp
      · rw [hdb] at hr
        unfold insert_data at hr
        rcases List.mem_append.mp hr with h | h
        · exact hP r (List.mem_of_mem_filter h) hrp
        · simp only [List.mem_singleton] at h
          subst h
          exfalso
          have hf1 : f.1 = p := hrp
          have hfeq : f = (p, some fs') := by
            obtain ⟨q, o⟩ := f
            simp only at hf1 hf2
            rw [hf1, hf2]
          have hcmem : (p, some fs') ∈ f :: fs := by
            rw [hfeq]; exact List.mem_cons_self _ _
          have hfalse := hC fs' hcmem
          rw [hsc] at hfalse
          cases hfalse
    · intro fs' hm
      exact hC fs' (List.mem_cons_of_mem _ hm)

/-- The final store of an incremental scan is the fold's store with the
unscanned rows removed. -/
theorem incremental_scan_db (H : HashFns) (cfg : HashConfig)
    (maxsz : Option Nat) (now : Timestamp)
    (files : List (String × Option FileState)) (db : Db) :
    (incremental_scan H cfg maxsz now files db).db
      = (delete_not_scanned ((files.foldl (incremental_step H cfg maxsz now)
          ⟨emptyResults, (set_all_unscanned db).2, []⟩).db)).2 := rfl

/-- Errors are not touched by the final deletion bookkeeping. -/
theorem incremental_scan_errors (H : HashFns) (cfg : HashConfig)
    (maxsz : Option Nat) (now : Timestamp)
    (files : List (String × Option FileState)) (db : Db) :
    (incremental_scan H cfg maxsz now files db).results.errors
      = ((files.foldl (incremental_step H cfg maxsz now)
          ⟨emptyResults, (set_all_unscanned db).2, []⟩).results).errors := rfl

/-- Scanned counts are not touched by the final deletion bookkeeping. -/
theorem incremental_scan_scanned (H : HashFns) (cfg : HashConfig)
    (maxsz : Option Nat) (now : Timestamp)
    (files : List (String × Option FileState)) (db : Db) :
    (incremental_scan H cfg maxsz now files db).results.files_scanned
      = ((files.foldl (incremental_step H cfg maxsz now)
          ⟨emptyResults, (set_all_unscanned db).2, []⟩).results).files_scanned
  := rfl

/-- **C9.** Each file over the `max_file_size` ceiling fails
fingerprinting with the size error and adds exactly one to the scan's
`errors` counter; the file is absent from the final store; and the scan
processes every other path (each counted once in `files_scanned`)
instead of aborting. -/
theorem claim_C9_size_ceiling (H : HashFns) (cfg : HashConfig) (m : Nat)
    (now : Timestamp) (files : List (String × Option FileState)) (db : Db)
    (hnd : (files.map Prod.fst).Nodup) :
    ((incremental_scan H cfg (some m) now files db).results.errors
      = (files.filter (sizeRejected (some m))).length)
    ∧ ((incremental_scan H cfg (some m) now files db).results.files_scanned
      = (files.filter (fun f => !sizeRejected (some m) f)).length)
    ∧ (∀ p fs, (p, some fs) ∈ files → m < fs.size →
        scan_single_file H cfg (some m) now fs
          = Except.error ScanError.sizeExceeded
        ∧ get_path p (incremental_scan H cfg (some m) now files db).db
          = none) := by
  have hcounts := incremental_fold_counts H cfg (some m) now files
    ⟨emptyResults, (set_all_unscanned db).2, []⟩
  refine ⟨?_, ?_, ?_⟩
  · rw [incremental_scan_errors]
    simpa [emptyResults] using hcounts.1
  · rw [incremental_scan_scanned]
    simpa [emptyResults] using hcounts.2
  · intro p fs hm hsz
    have hfail : scan_succeeds (some m) fs = false := by
      simp only [scan_succeeds, decide_eq_false_iff_not, not_le]
      omega
    refine ⟨scan_single_file_err _ _ _ _ _ hfail, ?_⟩
    have hC : ∀ fs', (p, some fs') ∈ files →
        scan_succeeds (some m) fs' = false := by
      intro fs' hm'
      have heq : some fs' = some fs := nodup_key_unique hnd hm' hm
      injection heq with h
      rw [h]
      exact hfail
    have hP0 : ∀ r ∈ (set_all_unscanned db).2, r.path = p →
        r.scanned = false := by
      intro r hr _
      simp only [set_all_unscanned, List.mem_map] at hr
      obtain ⟨s, _, rfl⟩ := hr
      rfl
    have hInv := incremental_fold_unscanned H cfg (some m) now p files
      ⟨emptyResults, (set_all_unscanned db).2, []⟩ hP0 hC
    rw [incremental_scan_db]
    unfold get_path
    cases hf : ((delete_not_scanned ((files.foldl
        (incremental_step H cfg (some m) now)
        ⟨emptyResults, (set_all_unscanned db).2, []⟩).db)).2).find?
        (fun r => r.path = p) with
    | none => simp [hf]
    | some r =>
      exfalso
      have hmem := List.mem_of_find?_eq_some hf
      have hpred := List.find?_some hf
      simp only [decide_eq_true_eq] at hpred
      unfold delete_not_scanned at hmem
      have hrs : r.scanned = true := (List.mem_filter.mp hmem).2
      have hrf := hInv r (List.mem_of_mem_filter hmem) hpred
      rw [hrf] at hrs
      cases hrs

/-- Witness for C9: the concrete two-file incremental scan with a
ten-byte ceiling reports one error and drops the oversized file. -/
theorem claim_C9_size_ceiling_witness :
    ((incremental_scan sampleHash defaultHashConfig (some 10) ⟨300, 0⟩
      files9 []).results.errors = 1)
    ∧ (get_path "/a" (incremental_scan sampleHash defaultHashConfig
      (some 10) ⟨300, 0⟩ files9 []).db = none) := by
  have h := claim_C9_size_ceiling sampleHash defaultHashConfig 10 ⟨300, 0⟩
    files9 [] (by decide)
  exact ⟨h.1.trans (by decide), (h.2.2 "/a" bigFile (by decide)
    (by decide)).2⟩

/-! ### Watcher lemmas -/

/-- **C10.** The watcher's pattern matcher applies wildcard semantics
only to the whole-pattern `"*"`, to a leading `*` (suffix match against
the literal remainder) or to a trailing `*` (prefix match against the
literal remainder); for every pattern whose first and last characters
are not `*` — in particular any pattern whose `*`s are all interior —
it reports a match exactly on character-for-character equality. -/
theorem claim_C10_pattern_semantics (name pattern : List Char) :
    (pattern = ['*'] → matches_pattern name pattern = true)
    ∧ (pattern ≠ ['*'] → pattern.head? = some '*' →
        matches_pattern name pattern = (pattern.drop 1).isSuffixOf name)
    ∧ (pattern.head? ≠ some '*' → pattern.getLast? = some '*' →
        matches_pattern name pattern = pattern.dropLast.isPrefixOf name)
    ∧ (pattern.head? ≠ some '*' → pattern.getLast? ≠ some '*' →
        (matches_pattern name pattern = true ↔ name = pattern)) := by
  refine ⟨?_, ?_, ?_, ?_⟩
  · intro h
    simp [matches_pattern, h]
  · intro hne hhd
    cases pattern with
    | nil => simp at hhd
    | cons c t =>
      simp only [List.head?_cons, Option.some.injEq] at hhd
      subst hhd
      cases t with
      | nil => exact absurd rfl hne
      | cons c2 t2 =>
        unfold matches_pattern
        rw [if_neg (by simp), if_pos ⟨rfl, by simp⟩]
  · intro hhd hlast
    cases pattern with
    | nil => simp at hlast
    | cons c t =>
      cases t with
      | nil =>
        simp only [List.getLast?_singleton, Option.some.injEq] at hlast
        exact absurd (by simp [hlast]) hhd
      | cons c2 t2 =>
        have hc : c ≠ '*' := by
          intro h
          exact hhd (by simp [h])
        unfold matches_pattern
        rw [if_neg (by simp [hc]), if_neg (by simp [hc]),
          if_pos ⟨hlast, by simp⟩]
  · intro hhd hlast
    cases pattern with
    | nil =>
      unfold matches_pattern
      rw [if_neg (by simp), if_neg (by simp), if_neg (by simp)]
      exact beq_iff_eq
    | cons c t =>
      have hc : c ≠ '*' := by
        intro h
        exact hhd (by simp [h])
      unfold matches_pattern
      rw [if_neg (by simp [hc]), if_neg (by simp [hc]),
        if_neg (by simp [hlast])]
      exact beq_iff_eq

/-- Witness for C10: the concrete pattern with an interior `*` matches
only its own literal spelling. -/
theorem claim_C10_pattern_semantics_witness :
    matches_pattern ['a', '*', 'b'] ['a', '*', 'b'] = true
    ∧ matches_pattern ['a', 'x', 'b'] ['a', '*', 'b'] = false := by
  have h1 := (claim_C10_pattern_semantics ['a', '*', 'b']
    ['a', '*', 'b']).2.2.2 (by decide) (by decide)
  have h2 := (claim_C10_pattern_semantics ['a', 'x', 'b']
    ['a', '*', 'b']).2.2.2 (by decide) (by decide)
  refine ⟨h1.mpr rfl, ?_⟩
  have hne : ¬(['a', 'x', 'b'] = (['a', '*', 'b'] : List Char)) := by decide
  cases hm : matches_pattern ['a', 'x', 'b'] ['a', '*', 'b'] with
  | false => rfl
  | true => exact absurd (h2.mp hm) hne

/-- Inside one counter window the throttle never resets: it counts the
event and compares against the budget. -/
theorem should_throttle_in_window (now maxPerSecond : Nat)
    (c : EventCounter) (h1 : c.last_reset ≤ now)
    (h2 : now < c.last_reset + 1000) :
    should_throttle now maxPerSecond c
      = (decide (maxPerSecond < c.count + 1),
        ⟨c.count + 1, c.last_reset⟩) := by
  unfold should_throttle
  rw [if_neg (by omega)]

/-- The debounced-batch loop within one counter window: every event —
filtered or not — advances the counter; the window start is unchanged;
at most the remaining budget is delivered; and everything delivered is
the conversion of some incoming event. -/
theorem handle_fold_spec (cfg : WatchConfig) (evs : List DebEvent) :
    ∀ acc : List FimEventM × EventCounter,
    (∀ e ∈ evs, acc.2.last_reset ≤ e.time
      ∧ e.time < acc.2.last_reset + 1000) →
    ((evs.foldl (handle_step cfg) acc).2.count = acc.2.count + evs.length)
    ∧ ((evs.foldl (handle_step cfg) acc).2.last_reset = acc.2.last_reset)
    ∧ ((evs.foldl (handle_step cfg) acc).1.length
        ≤ acc.1.length + (cfg.max_events_per_second - acc.2.count))
    ∧ (∀ fe ∈ (evs.foldl (handle_step cfg) acc).1,
        fe ∈ acc.1 ∨ ∃ e ∈ evs, convert_event cfg e = some fe) := by
  induction evs with
  | nil =>
    intro acc _
    refine ⟨rfl, rfl, by simp, ?_⟩
    intro fe hfe
    exact Or.inl hfe
  | cons e es ih =>
    intro acc hw
    have hwe := hw e (List.mem_cons_self _ _)
    have hthr := should_throttle_in_window e.time cfg.max_events_per_second
      acc.2 hwe.1 hwe.2
    rw [List.foldl_cons]
    by_cases hcap : cfg.max_events_per_second < acc.2.count + 1
    · have hstep : handle_step cfg acc e
          = (acc.1, ⟨acc.2.count + 1, acc.2.last_reset⟩) := by
        unfold handle_step
        rw [hthr]
        simp [hcap]
      rw [hstep]
      have hw' : ∀ e' ∈ es, (⟨acc.2.count + 1, acc.2.last_reset⟩
          : EventCounter).last_reset ≤ e'.time
          ∧ e'.time < (⟨acc.2.count + 1, acc.2.last_reset⟩
            : EventCounter).last_reset + 1000 := by
        intro e' he'
        exact hw e' (List.mem_cons_of_mem _ he')
      have hres := ih (acc.1, ⟨acc.2.count + 1, acc.2.last_reset⟩) hw'
      refine ⟨?_, hres.2.1, ?_, ?_⟩
      · have h1 := hres.1
        simp at h1 ⊢
        omega
      · have := hres.2.2.1
        simp only at this ⊢
        omega
      · intro fe hfe
        rcases hres.2.2.2 fe hfe with hin | ⟨e', he', hconv⟩
        · exact Or.inl hin
        · exact Or.inr ⟨e', List.mem_cons_of_mem _ he', hconv⟩
    · cases hconv : convert_event cfg e with
      | none =>
        have hstep : handle_step cfg acc e
            = (acc.1, ⟨acc.2.count + 1, acc.2.last_reset⟩) := by
          unfold handle_step
          rw [hthr]
          simp [hcap, hconv]
        rw [hstep]
        have hw' : ∀ e' ∈ es, (⟨acc.2.count + 1, acc.2.last_reset⟩
            : EventCounter).last_reset ≤ e'.time
            ∧ e'.time < (⟨acc.2.count + 1, acc.2.last_reset⟩
              : EventCounter).last_reset + 1000 := by
          intro e' he'
          exact hw e' (List.mem_cons_of_mem _ he')
        have hres := ih (acc.1, ⟨acc.2.count + 1, acc.2.last_reset⟩) hw'
        refine ⟨?_, hres.2.1, ?_, ?_⟩
        · have h1 := hres.1
          simp at h1 ⊢
          omega
        · have := hres.2.2.1
          simp only at this ⊢
          omega
        · intro fe hfe
          rcases hres.2.2.2 fe hfe with hin | ⟨e', he', hconv'⟩
          · exact Or.inl hin
          · exact Or.inr ⟨e', List.mem_cons_of_mem _ he', hconv'⟩
      | some fe0 =>
        have hstep : handle_step cfg acc e
            = (acc.1 ++ [fe0], ⟨acc.2.count + 1, acc.2.last_reset⟩) := by
          unfold handle_step
          rw [hthr]
          simp [hcap, hconv]
        rw [hstep]
        have hw' : ∀ e' ∈ es, (⟨acc.2.count + 1, acc.2.last_reset⟩
            : EventCounter).last_reset ≤ e'.time
            ∧ e'.time < (⟨acc.2.count + 1, acc.2.last_reset⟩
              : EventCounter).last_reset + 1000 := by
          intro e' he'
          exact hw e' (List.mem_cons_of_mem _ he')
        have hres := ih (acc.1 ++ [fe0], ⟨acc.2.count + 1, acc.2.last_reset⟩)
          hw'
        refine ⟨?_, hres.2.1, ?_, ?_⟩
        · have h1 := hres.1
          simp at h1 ⊢
          omega
        · have := hres.2.2.1
          simp only [List.length_append, List.length_singleton] at this ⊢
          omega
        · intro fe hfe
          rcases hres.2.2.2 fe hfe with hin | ⟨e', he', hconv'⟩
          · rcases List.mem_append.mp hin with hin' | hin'
            · exact Or.inl hin'
            · simp only [List.mem_singleton] at hin'
              subst hin'
              exact Or.inr ⟨e, List.mem_cons_self _ _, hconv⟩
          · exact Or.inr ⟨e', List.mem_cons_of_mem _ he', hconv'⟩

/-- **C5 (counterexample).** The claim says excluded paths consume no
rate budget and every surviving event within the budget is delivered.
With a budget of one, an ignored `junk.tmp` event followed by a
surviving `good.txt` event in the same second yields zero deliveries:
the ignored event consumed the only token (the counter reads 1 after
processing it alone), so the surviving event — one event, within the
claimed budget — is throttled away. -/
theorem claim_C5_counterexample :
    (handle_debounced_events cfg5 ⟨0, 0⟩ [ev1, ev2]).1 = []
    ∧ should_ignore_path ev1.path cfg5 = true
    ∧ should_ignore_path ev2.path cfg5 = false
    ∧ ([ev1, ev2].filter
        (fun e => !should_ignore_path e.path cfg5)).length = 1
    ∧ cfg5.max_events_per_second = 1
    ∧ (handle_debounced_events cfg5 ⟨0, 0⟩ [ev1]).2.count = 1 := by
  refine ⟨by decide, by decide, by decide, by decide, rfl, by decide⟩

/-- **C5 (amended).** Throttling runs before ignore filtering: within
one counter window every debounced event, excluded or not, consumes
rate budget (the counter grows by the total event count and its window
start is unchanged); at most `max_events_per_second` minus the budget
already used events are delivered; and every delivered event is the
conversion of an incoming event that survived the ignore filters. -/
theorem claim_C5_throttle_before_filter (cfg : WatchConfig)
    (c : EventCounter) (evs : List DebEvent)
    (hw : ∀ e ∈ evs, c.last_reset ≤ e.time ∧ e.time < c.last_reset + 1000) :
    ((handle_debounced_events cfg c evs).2.count = c.count + evs.length)
    ∧ ((handle_debounced_events cfg c evs).2.last_reset = c.last_reset)
    ∧ ((handle_debounced_events cfg c evs).1.length
        ≤ cfg.max_events_per_second - c.count)
    ∧ (∀ fe ∈ (handle_debounced_events cfg c evs).1,
        ∃ e ∈ evs, convert_event cfg e = some fe) := by
  have h := handle_fold_spec cfg evs ([], c) hw
  refine ⟨h.1, h.2.1, by simpa using h.2.2.1, ?_⟩
  intro fe hfe
  rcases h.2.2.2 fe hfe with hin | hex
  · cases hin
  · exact hex

/-- Witness for C5 (amended): on the concrete two-event batch the
counter ends at two (both events, one of them ignored, consumed budget)
and at most one event is delivered. -/
theorem claim_C5_throttle_before_filter_witness :
    ((handle_debounced_events cfg5 ⟨0, 0⟩ [ev1, ev2]).2.count = 2)
    ∧ ((handle_debounced_events cfg5 ⟨0, 0⟩ [ev1, ev2]).1.length ≤ 1) := by
  have h := claim_C5_throttle_before_filter cfg5 ⟨0, 0⟩ [ev1, ev2]
    (by decide)
  exact ⟨h.1.trans (by decide), le_trans h.2.2.1 (by decide)⟩
